import Mathlib

/-!
# Verification of the Call-of-Duty statistics analyzer

Shallow embedding of `src/cod_stats.py` (and its docstring-free duplicate
`src/cod-stats.py`).  Python floats are modelled as exact rationals (`ℚ`),
Python ints as `ℤ`.  A CSV `DictReader` row is modelled by the values it can
hold under the five column names the script consults; a `none` in a numeric
field models a missing column or a value on which `int`/`float` coercion
raises.  The Python `dict` keyed by timestamp is modelled as an association
list with dict insertion semantics (an existing key is updated in place,
a new key is appended).
-/

namespace CodStats

/-- `ROWS_PER_PAGE = 40` from the source. -/
def ROWS_PER_PAGE : ℕ := 40

/-- `XTICK_STEP = 25` from the source. -/
def XTICK_STEP : ℕ := 25

/-- `TABLE_HEADERS` from the source. -/
def TABLE_HEADERS : List String := ["Timestamp", "Skill", "Kills", "Deaths", "K/D Ratio"]

/-- `parse_kd_ratio(kills, deaths)`: `float(kills) if deaths == 0 else kills / deaths`.
Python's true division of two ints is modelled as exact division in `ℚ`. -/
def parse_kd_ratio (kills deaths : ℤ) : ℚ :=
  if deaths = 0 then (kills : ℚ) else (kills : ℚ) / (deaths : ℚ)

/-- One value of the per-timestamp dict built by `read_game_data`:
`{"Skill": skill, "Kills": kills, "Deaths": deaths, KD_LABEL: parse_kd_ratio(kills, deaths)}`. -/
structure Record where
  skill : ℚ
  kills : ℤ
  deaths : ℤ
  ratio : ℚ
  deriving DecidableEq, Repr

/-- A CSV `DictReader` row, restricted to the columns the script reads.
`bomTs` is the value stored under the BOM-prefixed header `"ï»¿UTC Timestamp"`,
`utcTs` the value under the plain header `"UTC Timestamp"`; `none` means the
header (hence the key) is absent.  `killsField`, `deathsField` and
`skillField` are the results of `int(row["Kills"])`, `int(row["Deaths"])` and
`float(row["Skill"])`: `none` models a missing column or a failing coercion,
either of which raises in Python. -/
structure Row where
  bomTs : Option String
  utcTs : Option String
  killsField : Option ℤ
  deathsField : Option ℤ
  skillField : Option ℚ
  deriving DecidableEq, Repr

/-- Python truthiness of an optional string: `None` and `""` are falsy. -/
def truthy : Option String → Bool
  | none => false
  | some s => s ≠ ""

/-- Python's `a or b` on optional strings: `a` if truthy, else `b`. -/
def pyOr (a b : Option String) : Option String :=
  if truthy a then a else b

/-- `ts = row.get("ï»¿UTC Timestamp") or row.get("UTC Timestamp")` followed by
the guard `if not ts: continue`: the resolved timestamp of a row, or `none`
when the row is skipped. -/
def resolveTs (r : Row) : Option String :=
  let ts := pyOr r.bomTs r.utcTs
  if truthy ts then ts else none

/-- The in-memory `game_data` dict: timestamp key to record, in insertion order. -/
abbrev Dataset := List (String × Record)

/-- `game_data[ts] = {...}` with Python dict semantics: an existing key keeps
its position and gets the new value, a fresh key is appended at the end. -/
def insertGD : Dataset → String → Record → Dataset
  | [], k, v => [(k, v)]
  | p :: ps, k, v => if p.1 = k then (k, v) :: ps else p :: insertGD ps k v

/-- The record built from one row's numeric fields, `none` if
`int(row["Kills"])`, `int(row["Deaths"])` or `float(row["Skill"])` raises. -/
def rowRecord (r : Row) : Option Record :=
  match r.killsField, r.deathsField, r.skillField with
  | some kills, some deaths, some skill =>
      some ⟨skill, kills, deaths, parse_kd_ratio kills deaths⟩
  | _, _, _ => none

/-- The `for row in csv_reader` loop of `read_game_data`, with `gd` the dict
built so far.  A row without a resolvable timestamp is skipped (`continue`);
a resolvable row with a missing or non-numeric field raises, modelled as
`Except.error`. -/
def read_rows (gd : Dataset) : List Row → Except String Dataset
  | [] => .ok gd
  | r :: rs =>
    match resolveTs r with
    | none => read_rows gd rs
    | some ts =>
      match rowRecord r with
      | some rec => read_rows (insertGD gd ts rec) rs
      | none => .error "malformed row"

/-- `read_game_data`: parse the rows of the input file into the dict. -/
def read_game_data (rows : List Row) : Except String Dataset :=
  read_rows [] rows

/-- `game_data.get(k)` as used through `game_data[ts]`: the first (unique)
entry with key `k`. -/
def lookupGD (gd : Dataset) (k : String) : Option Record :=
  (gd.find? (fun p => p.1 == k)).map Prod.snd

/-- Total version of `game_data[ts]` for keys known to be present
(a `KeyError` would be raised otherwise; the script only indexes with keys
taken from the dict itself). -/
def findRecord (gd : Dataset) (k : String) : Record :=
  (lookupGD gd k).getD ⟨0, 0, 0, 0⟩

/-- The timestamps of the rows that `read_game_data` does not skip, in input
order. -/
def resolvedKeys (rows : List Row) : List String :=
  rows.filterMap resolveTs

/-- The last row of the input whose timestamp resolves to `T`, if any. -/
def lastResolved (T : String) : List Row → Option Row
  | [] => none
  | r :: rs =>
    match lastResolved T rs with
    | some r2 => some r2
    | none => if resolveTs r = some T then some r else none

/-- One step of CPython's `min(...)`: keep the current value, replace it only
when the next item is strictly smaller, so ties keep the earlier item. -/
def minStep (c v : ℚ) : ℚ := if v < c then v else c

/-- One step of CPython's `max(...)`: replace only on a strictly larger item. -/
def maxStep (c v : ℚ) : ℚ := if c < v then v else c

/-- `min(series)` over a non-empty list `x :: xs`. -/
def pyMin (x : ℚ) (xs : List ℚ) : ℚ := xs.foldl minStep x

/-- `max(series)` over a non-empty list `x :: xs`. -/
def pyMax (x : ℚ) (xs : List ℚ) : ℚ := xs.foldl maxStep x

/-- One step of `min(range(len(series)), key=series.__getitem__)`: the running
best pair of index and value, replaced only on a strictly smaller value. -/
def argminStep (b p : ℕ × ℚ) : ℕ × ℚ := if p.2 < b.2 then p else b

/-- One step of `max(range(len(series)), key=series.__getitem__)`. -/
def argmaxStep (b p : ℕ × ℚ) : ℕ × ℚ := if b.2 < p.2 then p else b

/-- `min(range(len(series)), key=series.__getitem__)` over `x :: xs`:
iterate over the indexed items, starting from index `0`. -/
def pyArgMin (x : ℚ) (xs : List ℚ) : ℕ :=
  (List.foldl argminStep (0, x) (List.enumFrom 1 xs)).1

/-- `max(range(len(series)), key=series.__getitem__)` over `x :: xs`. -/
def pyArgMax (x : ℚ) (xs : List ℚ) : ℕ :=
  (List.foldl argmaxStep (0, x) (List.enumFrom 1 xs)).1

/-- `compute_series_stats(series)`, returning
`(smin, smax, avg, span, min_idx, max_idx)`.  Python's `min`/`max` raise
`ValueError` on an empty sequence, modelled as `none`.  `1e-9` is the literal
`eps` of the source, exact here. -/
def compute_series_stats (series : List ℚ) :
    Option (ℚ × ℚ × ℚ × ℚ × ℕ × ℕ) :=
  match series with
  | [] => none
  | x :: xs =>
    some (pyMin x xs, pyMax x xs,
      (x :: xs).sum / ((x :: xs).length : ℚ),
      max (max |pyMin x xs| |pyMax x xs|) (1 / 1000000000),
      pyArgMin x xs, pyArgMax x xs)

/-- Outcome of one `annotate_series_stats` call site in `generate_chart`:
either the guard `if series:` skipped it, or it ran `compute_series_stats`
and drew the markers, or that call raised (`ValueError` on an empty list). -/
inductive AnnotateResult
  | skipped
  | failed
  | drawn (stats : ℚ × ℚ × ℚ × ℚ × ℕ × ℕ)
  deriving DecidableEq, Repr

/-- `annotate_series_stats(ax, indices, series, ...)`: runs
`compute_series_stats(series)` and draws min/max markers and the average
line; raises when the series is empty. -/
def annotate_series_stats (series : List ℚ) : AnnotateResult :=
  match compute_series_stats series with
  | none => .failed
  | some st => .drawn st

/-- The annotation behaviour of `generate_chart`: `annotate_series_stats` is
invoked for the K/D axis only under `if kd_series:` and for the skill axis
only under `if skill_series:` (Python list truthiness = non-emptiness). -/
def generate_chart (kd_series skill_series : List ℚ) :
    AnnotateResult × AnnotateResult :=
  ((if kd_series.isEmpty then .skipped else annotate_series_stats kd_series),
   (if skill_series.isEmpty then .skipped else annotate_series_stats skill_series))

/-- `sorted(game_data.keys())`: the dict's keys in ascending string order. -/
def sortedKeys (gd : Dataset) : List String :=
  (gd.map Prod.fst).mergeSort (fun a b => decide (a ≤ b))

/-- The series extraction performed by `main`:
`timestamps_sorted = sorted(game_data.keys())`,
`kd_series = [game_data[ts][KD_LABEL] for ts in timestamps_sorted]`,
`skill_series = [game_data[ts][SKILL_LABEL] for ts in timestamps_sorted]`,
`game_indices = list(range(1, len(timestamps_sorted) + 1))`. -/
def extract_series (gd : Dataset) :
    List String × List ℚ × List ℚ × List ℕ :=
  (sortedKeys gd,
   (sortedKeys gd).map (fun ts => (findRecord gd ts).ratio),
   (sortedKeys gd).map (fun ts => (findRecord gd ts).skill),
   List.range' 1 (sortedKeys gd).length)

/-- Model of Python's `f"{x:.2f}"` on our rational model of floats: the value
rounded to hundredths, printed with exactly two decimals.  (CPython rounds the
underlying binary double half-to-even; no claim depends on the tie rule.) -/
def fmt2 (x : ℚ) : String :=
  let n : ℤ := round (x * 100)
  let m : ℕ := n.natAbs
  (if n < 0 then "-" else "") ++ toString (m / 100) ++ "." ++
    (if m % 100 < 10 then "0" else "") ++ toString (m % 100)

/-- One data row of the table:
`[timestamp, f"{skill:.2f}", str(kills), str(deaths), f"{ratio:.2f}"]`. -/
def formatRow (gd : Dataset) (timestamp : String) : List String :=
  [timestamp,
   fmt2 (findRecord gd timestamp).skill,
   toString (findRecord gd timestamp).kills,
   toString (findRecord gd timestamp).deaths,
   fmt2 (findRecord gd timestamp).ratio]

/-- One rendered page of the table PDF: its title and its cell grid. -/
structure TablePage where
  title : String
  cells : List (List String)
  deriving DecidableEq, Repr

/-- The page built by one iteration of the `for page in range(total_pages)`
loop of `save_table_pdf`: the title string, the header row, then the rows for
`data_rows[start_idx:end_idx]`. -/
def tablePage (gd : Dataset) (total_pages page : ℕ) : TablePage :=
  ⟨"Game Data Table - Page " ++ toString (page + 1) ++ " of " ++ toString total_pages,
   TABLE_HEADERS ::
     (((sortedKeys gd).drop (page * ROWS_PER_PAGE)).take ROWS_PER_PAGE).map (formatRow gd)⟩

/-- All pages rendered by `save_table_pdf`, in loop order, with
`total_pages = (len(data_rows) + ROWS_PER_PAGE - 1) // ROWS_PER_PAGE`. -/
def tablePages (gd : Dataset) : List TablePage :=
  (List.range (((sortedKeys gd).length + ROWS_PER_PAGE - 1) / ROWS_PER_PAGE)).map
    (tablePage gd (((sortedKeys gd).length + ROWS_PER_PAGE - 1) / ROWS_PER_PAGE))

/-- One `with PdfPages(output_path) as pdf: ...` block: opening `PdfPages`
truncates the file at `output_path`, and on close the file holds exactly the
figures saved inside the block, the previous contents being lost. -/
def pdfPagesWrite (_previous figs : List TablePage) : List TablePage := figs

/-- The file persisted at `output_path` after `save_table_pdf` returns: the
source opens `PdfPages(output_path)` INSIDE the per-page loop and saves the
single current figure, so each iteration rewrites the file. -/
def save_table_pdf (gd : Dataset) : List TablePage :=
  (tablePages gd).foldl (fun file page => pdfPagesWrite file [page]) []

/-! ## Lemmas about the dict operations -/

lemma keys_insertGD (gd : Dataset) (k : String) (v : Record) :
    (insertGD gd k v).map Prod.fst =
      if k ∈ gd.map Prod.fst then gd.map Prod.fst else gd.map Prod.fst ++ [k] := by
  induction gd with
  | nil => simp [insertGD]
  | cons p ps ih =>
    by_cases hp : p.1 = k
    · simp [insertGD, hp]
    · have hmem : (k ∈ p.1 :: ps.map Prod.fst) ↔ k ∈ ps.map Prod.fst := by
        constructor
        · intro h
          rcases List.mem_cons.mp h with h | h
          · exact absurd h.symm hp
          · exact h
        · exact fun h => List.mem_cons_of_mem _ h
      simp only [insertGD, if_neg hp, List.map_cons]
      rw [ih]
      by_cases hk : k ∈ ps.map Prod.fst
      · rw [if_pos hk, if_pos (List.mem_cons_of_mem _ hk)]
      · rw [if_neg hk, if_neg (fun h => hk (hmem.mp h))]
        simp

lemma nodup_keys_insertGD (gd : Dataset) (k : String) (v : Record)
    (h : (gd.map Prod.fst).Nodup) : ((insertGD gd k v).map Prod.fst).Nodup := by
  rw [keys_insertGD]
  by_cases hk : k ∈ gd.map Prod.fst
  · simpa [hk] using h
  · simp only [if_neg hk]
    rw [List.nodup_append]
    refine ⟨h, List.nodup_singleton k, ?_⟩
    intro a ha hb
    rw [List.mem_singleton] at hb
    exact hk (hb ▸ ha)

lemma toFinset_keys_insertGD (gd : Dataset) (k : String) (v : Record) :
    ((insertGD gd k v).map Prod.fst).toFinset = insert k (gd.map Prod.fst).toFinset := by
  rw [keys_insertGD]
  by_cases hk : k ∈ gd.map Prod.fst
  · rw [if_pos hk, eq_comm, Finset.insert_eq_self]
    exact List.mem_toFinset.mpr hk
  · rw [if_neg hk, List.toFinset_append, Finset.union_comm]
    ext a
    simp [or_comm]

lemma length_insertGD (gd : Dataset) (k : String) (v : Record) :
    (insertGD gd k v).length =
      if k ∈ gd.map Prod.fst then gd.length else gd.length + 1 := by
  have h1 : (insertGD gd k v).length = ((insertGD gd k v).map Prod.fst).length :=
    (List.length_map _ _).symm
  rw [h1, keys_insertGD]
  by_cases hk : k ∈ gd.map Prod.fst
  · rw [if_pos hk, if_pos hk, List.length_map]
  · rw [if_neg hk, if_neg hk, List.length_append, List.length_map, List.length_singleton]

lemma lookupGD_insertGD_self (gd : Dataset) (k : String) (v : Record) :
    lookupGD (insertGD gd k v) k = some v := by
  induction gd with
  | nil => simp [insertGD, lookupGD]
  | cons p ps ih =>
    by_cases hp : p.1 = k
    · simp [insertGD, hp, lookupGD]
    · simp only [insertGD, if_neg hp, lookupGD] at ih ⊢
      rw [List.find?_cons_of_neg _ (by simpa using hp)]
      exact ih

lemma lookupGD_insertGD_other (gd : Dataset) (k k' : String) (v : Record)
    (h : k' ≠ k) : lookupGD (insertGD gd k v) k' = lookupGD gd k' := by
  induction gd with
  | nil =>
    have hkk : (k == k') = false := by
      simp only [beq_eq_false_iff_ne, ne_eq]
      exact fun hk => h hk.symm
    simp [insertGD, lookupGD, hkk]
  | cons p ps ih =>
    by_cases hp : p.1 = k
    · have hk' : (k == k') = false := by
        simp only [beq_eq_false_iff_ne, ne_eq]
        exact fun hk => h (hk.symm)
      have hp' : (p.1 == k') = false := by
        simp only [beq_eq_false_iff_ne, ne_eq, hp]
        exact fun hk => h (hk.symm)
      simp only [insertGD, if_pos hp, lookupGD]
      rw [List.find?_cons_of_neg _ (by simp [hk']), List.find?_cons_of_neg _ (by simp [hp'])]
    · simp only [insertGD, if_neg hp, lookupGD] at ih ⊢
      by_cases hq : p.1 = k'
      · rw [List.find?_cons_of_pos _ (by simpa using hq),
          List.find?_cons_of_pos _ (by simpa using hq)]
      · rw [List.find?_cons_of_neg _ (by simpa using hq),
          List.find?_cons_of_neg _ (by simpa using hq)]
        exact ih

lemma mem_insertGD {gd : Dataset} {k : String} {v : Record} {p : String × Record}
    (h : p ∈ insertGD gd k v) : p = (k, v) ∨ p ∈ gd := by
  induction gd with
  | nil => simpa [insertGD] using h
  | cons q ps ih =>
    by_cases hq : q.1 = k
    · simp only [insertGD, if_pos hq, List.mem_cons] at h
      rcases h with h | h
      · exact Or.inl h
      · exact Or.inr (List.mem_cons_of_mem _ h)
    · simp only [insertGD, if_neg hq, List.mem_cons] at h
      rcases h with h | h
      · exact Or.inr (h ▸ List.mem_cons_self _ _)
      · rcases ih h with h' | h'
        · exact Or.inl h'
        · exact Or.inr (List.mem_cons_of_mem _ h')

lemma find?_eq_of_mem_nodup {gd : Dataset} {t : String} {rec : Record}
    (hmem : (t, rec) ∈ gd) (hnd : (gd.map Prod.fst).Nodup) :
    gd.find? (fun p => p.1 == t) = some (t, rec) := by
  induction gd with
  | nil => simp at hmem
  | cons q ps ih =>
    simp only [List.map_cons, List.nodup_cons] at hnd
    rcases List.mem_cons.mp hmem with h | h
    · rw [← h]
      exact List.find?_cons_of_pos _ (by simp)
    · have ht : t ∈ ps.map Prod.fst := List.mem_map.mpr ⟨(t, rec), h, rfl⟩
      have hq : q.1 ≠ t := fun he => hnd.1 (he ▸ ht)
      rw [List.find?_cons_of_neg _ (by simpa using hq)]
      exact ih h hnd.2

lemma findRecord_eq_of_mem {gd : Dataset} {t : String} {rec : Record}
    (hmem : (t, rec) ∈ gd) (hnd : (gd.map Prod.fst).Nodup) :
    findRecord gd t = rec := by
  simp [findRecord, lookupGD, find?_eq_of_mem_nodup hmem hnd]

/-! ## Lemmas about the parse loop -/

lemma ratio_rowRecord {r : Row} {rec : Record} (h : rowRecord r = some rec) :
    rec.ratio = parse_kd_ratio rec.kills rec.deaths := by
  rcases hk : r.killsField with _ | k <;> rcases hd : r.deathsField with _ | d <;>
    rcases hs : r.skillField with _ | s <;> simp [rowRecord, hk, hd, hs] at h
  rw [← h]

lemma read_rows_forall {P : Record → Prop}
    (hrec : ∀ r rec, rowRecord r = some rec → P rec) :
    ∀ (rows : List Row) (gd gd' : Dataset),
      read_rows gd rows = .ok gd' → (∀ p ∈ gd, P p.2) → ∀ p ∈ gd', P p.2 := by
  intro rows
  induction rows with
  | nil =>
    intro gd gd' hok hgd
    simp only [read_rows, Except.ok.injEq] at hok
    exact hok ▸ hgd
  | cons r rs ih =>
    intro gd gd' hok hgd
    unfold read_rows at hok
    cases hts : resolveTs r with
    | none =>
      rw [hts] at hok
      exact ih gd gd' hok hgd
    | some ts =>
      rw [hts] at hok
      cases hrr : rowRecord r with
      | none => rw [hrr] at hok; simp at hok
      | some rec =>
        rw [hrr] at hok
        refine ih _ gd' hok ?_
        intro p hp
        rcases mem_insertGD hp with h | h
        · rw [h]
          exact hrec r rec hrr
        · exact hgd p h

lemma read_rows_lookup (T : String) :
    ∀ (rows : List Row) (gd gd' : Dataset), read_rows gd rows = .ok gd' →
      lookupGD gd' T =
        (match lastResolved T rows with
         | some r => rowRecord r
         | none => lookupGD gd T) := by
  intro rows
  induction rows with
  | nil =>
    intro gd gd' hok
    simp only [read_rows, Except.ok.injEq] at hok
    simp [lastResolved, hok]
  | cons r rs ih =>
    intro gd gd' hok
    unfold read_rows at hok
    cases hts : resolveTs r with
    | none =>
      rw [hts] at hok
      rw [ih gd gd' hok]
      cases hlr : lastResolved T rs with
      | some r2 => simp [lastResolved, hlr]
      | none => simp [lastResolved, hlr, hts]
    | some ts =>
      rw [hts] at hok
      cases hrr : rowRecord r with
      | none => rw [hrr] at hok; simp at hok
      | some rec =>
        rw [hrr] at hok
        rw [ih _ gd' hok]
        cases hlr : lastResolved T rs with
        | some r2 => simp [lastResolved, hlr]
        | none =>
          by_cases hT : ts = T
          · subst hT
            simp [lastResolved, hlr, hts, hrr, lookupGD_insertGD_self]
          · have hcond : ¬(resolveTs r = some T) := by
              rw [hts]
              exact fun hh => hT (Option.some.inj hh)
            simp only [lastResolved, hlr, if_neg hcond]
            exact lookupGD_insertGD_other gd ts T rec (fun he => hT he.symm)

lemma read_rows_keys_toFinset :
    ∀ (rows : List Row) (gd gd' : Dataset), read_rows gd rows = .ok gd' →
      (gd'.map Prod.fst).toFinset =
        (gd.map Prod.fst).toFinset ∪ (resolvedKeys rows).toFinset := by
  intro rows
  induction rows with
  | nil =>
    intro gd gd' hok
    simp only [read_rows, Except.ok.injEq] at hok
    simp [resolvedKeys, hok]
  | cons r rs ih =>
    intro gd gd' hok
    unfold read_rows at hok
    cases hts : resolveTs r with
    | none =>
      rw [hts] at hok
      rw [ih gd gd' hok]
      simp [resolvedKeys, List.filterMap_cons, hts]
    | some ts =>
      rw [hts] at hok
      cases hrr : rowRecord r with
      | none => rw [hrr] at hok; simp at hok
      | some rec =>
        rw [hrr] at hok
        rw [ih _ gd' hok, toFinset_keys_insertGD]
        simp only [resolvedKeys, List.filterMap_cons, hts, List.toFinset_cons]
        ext a
        simp only [Finset.mem_union, Finset.mem_insert, List.mem_toFinset]
        tauto

lemma read_rows_keys_nodup :
    ∀ (rows : List Row) (gd gd' : Dataset), read_rows gd rows = .ok gd' →
      (gd.map Prod.fst).Nodup → (gd'.map Prod.fst).Nodup := by
  intro rows
  induction rows with
  | nil =>
    intro gd gd' hok hnd
    simp only [read_rows, Except.ok.injEq] at hok
    exact hok ▸ hnd
  | cons r rs ih =>
    intro gd gd' hok hnd
    unfold read_rows at hok
    cases hts : resolveTs r with
    | none =>
      rw [hts] at hok
      exact ih gd gd' hok hnd
    | some ts =>
      rw [hts] at hok
      cases hrr : rowRecord r with
      | none => rw [hrr] at hok; simp at hok
      | some rec =>
        rw [hrr] at hok
        exact ih _ gd' hok (nodup_keys_insertGD gd ts rec hnd)

lemma toFinset_card_of_one_dup {ks : List String} {T : String}
    (hcount : ks.count T = 2) (hnd : (ks.erase T).Nodup) :
    ks.toFinset.card = ks.length - 1 := by
  have hT : T ∈ ks := by
    rw [← List.count_pos_iff]
    omega
  have hlen : (ks.erase T).length = ks.length - 1 := List.length_erase_of_mem hT
  have hT2 : T ∈ ks.erase T := by
    rw [← List.count_pos_iff, List.count_erase_self]
    omega
  have hfin : ks.toFinset = (ks.erase T).toFinset := by
    ext a
    simp only [List.mem_toFinset]
    constructor
    · intro ha
      by_cases haT : a = T
      · exact haT ▸ hT2
      · exact (List.mem_erase_of_ne haT).mpr ha
    · intro ha
      exact (List.erase_sublist T ks).subset ha
  rw [hfin, List.toFinset_card_of_nodup hnd, hlen]

/-! ## Lemmas about the series statistics -/

lemma minStep_le_left (c v : ℚ) : minStep c v ≤ c := by
  unfold minStep
  split
  · exact le_of_lt (by assumption)
  · exact le_refl c

lemma minStep_le_right (c v : ℚ) : minStep c v ≤ v := by
  unfold minStep
  split
  · exact le_refl v
  · exact le_of_not_lt (by assumption)

lemma maxStep_ge_left (c v : ℚ) : c ≤ maxStep c v := by
  unfold maxStep
  split
  · exact le_of_lt (by assumption)
  · exact le_refl c

lemma maxStep_ge_right (c v : ℚ) : v ≤ maxStep c v := by
  unfold maxStep
  split
  · exact le_refl v
  · exact le_of_not_lt (by assumption)

lemma pyMin_concat (x y : ℚ) (xs : List ℚ) :
    pyMin x (xs ++ [y]) = minStep (pyMin x xs) y :=
  List.foldl_concat minStep x y xs

lemma pyMax_concat (x y : ℚ) (xs : List ℚ) :
    pyMax x (xs ++ [y]) = maxStep (pyMax x xs) y :=
  List.foldl_concat maxStep x y xs

lemma pyMin_mem (x : ℚ) (xs : List ℚ) : pyMin x xs ∈ x :: xs := by
  induction xs using List.reverseRecOn with
  | nil => simp [pyMin]
  | append_singleton l y ih =>
    rw [pyMin_concat]
    unfold minStep
    split
    · simp
    · rcases List.mem_cons.mp ih with h | h
      · simp [h]
      · simp [List.mem_append, h]

lemma pyMax_mem (x : ℚ) (xs : List ℚ) : pyMax x xs ∈ x :: xs := by
  induction xs using List.reverseRecOn with
  | nil => simp [pyMax]
  | append_singleton l y ih =>
    rw [pyMax_concat]
    unfold maxStep
    split
    · simp
    · rcases List.mem_cons.mp ih with h | h
      · simp [h]
      · simp [List.mem_append, h]

lemma pyMin_le (x : ℚ) (xs : List ℚ) : ∀ y ∈ x :: xs, pyMin x xs ≤ y := by
  induction xs using List.reverseRecOn with
  | nil =>
    intro y hy
    rw [List.mem_singleton] at hy
    simp [pyMin, hy]
  | append_singleton l z ih =>
    intro y hy
    rw [pyMin_concat]
    rcases List.mem_cons.mp hy with h | h
    · exact le_trans (minStep_le_left _ _) (ih y (h ▸ List.mem_cons_self x l))
    · rcases List.mem_append.mp h with h' | h'
      · exact le_trans (minStep_le_left _ _) (ih y (List.mem_cons_of_mem _ h'))
      · rw [List.mem_singleton] at h'
        exact h' ▸ minStep_le_right _ _

lemma pyMax_ge (x : ℚ) (xs : List ℚ) : ∀ y ∈ x :: xs, y ≤ pyMax x xs := by
  induction xs using List.reverseRecOn with
  | nil =>
    intro y hy
    rw [List.mem_singleton] at hy
    simp [pyMax, hy]
  | append_singleton l z ih =>
    intro y hy
    rw [pyMax_concat]
    rcases List.mem_cons.mp hy with h | h
    · exact le_trans (ih y (h ▸ List.mem_cons_self x l)) (maxStep_ge_left _ _)
    · rcases List.mem_append.mp h with h' | h'
      · exact le_trans (ih y (List.mem_cons_of_mem _ h')) (maxStep_ge_left _ _)
      · rw [List.mem_singleton] at h'
        exact h' ▸ maxStep_ge_right _ _

lemma argmin_fold_spec (x : ℚ) (xs : List ℚ) :
    (List.foldl argminStep (0, x) (List.enumFrom 1 xs)).1 < (x :: xs).length ∧
    (x :: xs).getD (List.foldl argminStep (0, x) (List.enumFrom 1 xs)).1 0 =
      (List.foldl argminStep (0, x) (List.enumFrom 1 xs)).2 ∧
    (∀ j < (x :: xs).length,
      (List.foldl argminStep (0, x) (List.enumFrom 1 xs)).2 ≤ (x :: xs).getD j 0) ∧
    (∀ j < (List.foldl argminStep (0, x) (List.enumFrom 1 xs)).1,
      (List.foldl argminStep (0, x) (List.enumFrom 1 xs)).2 < (x :: xs).getD j 0) := by
  induction xs using List.reverseRecOn with
  | nil =>
    refine ⟨by simp, by simp, ?_, by simp⟩
    intro j hj
    have hj0 : j = 0 := by simp only [List.length_cons, List.length_nil] at hj; omega
    subst hj0
    simp
  | append_singleton l y ih =>
    rw [List.enumFrom_append]
    simp only [List.enumFrom, List.foldl_append, List.foldl_cons, List.foldl_nil]
    set p := List.foldl argminStep (0, x) (List.enumFrom 1 l)
    obtain ⟨ih1, ih2, ih3, ih4⟩ := ih
    have hcons : x :: (l ++ [y]) = (x :: l) ++ [y] := by simp
    have hlen1 : (x :: l).length = l.length + 1 := by simp
    have hlen2 : (x :: (l ++ [y])).length = l.length + 2 := by simp
    have hyidx : (x :: (l ++ [y])).getD (l.length + 1) 0 = y := by
      rw [hcons, List.getD_append_right _ _ _ _ (by omega)]
      simp [hlen1]
    have hsame : ∀ j, j < (x :: l).length →
        (x :: (l ++ [y])).getD j 0 = (x :: l).getD j 0 := by
      intro j hj
      rw [hcons, List.getD_append _ _ _ _ hj]
    by_cases hlt : y < p.2
    · have hstep : argminStep p (1 + l.length, y) = (1 + l.length, y) := by
        simp [argminStep, hlt]
      rw [hstep]
      refine ⟨by rw [hlen2]; omega, ?_, ?_, ?_⟩
      · show (x :: (l ++ [y])).getD (1 + l.length) 0 = y
        rw [Nat.add_comm 1 l.length]
        exact hyidx
      · intro j hj
        rw [hlen2] at hj
        by_cases hjs : j < (x :: l).length
        · rw [hsame j hjs]
          exact le_of_lt (lt_of_lt_of_le hlt (ih3 j hjs))
        · have hj' : j = l.length + 1 := by rw [hlen1] at hjs; omega
          rw [hj', hyidx]
      · intro j hj
        have hjs : j < (x :: l).length := by rw [hlen1]; omega
        rw [hsame j hjs]
        exact lt_of_lt_of_le hlt (ih3 j hjs)
    · have hstep : argminStep p (1 + l.length, y) = p := by
        simp only [argminStep]
        rw [if_neg hlt]
      rw [hstep]
      refine ⟨by rw [hlen2]; rw [hlen1] at ih1; omega, ?_, ?_, ?_⟩
      · rw [hsame p.1 ih1]
        exact ih2
      · intro j hj
        rw [hlen2] at hj
        by_cases hjs : j < (x :: l).length
        · rw [hsame j hjs]
          exact ih3 j hjs
        · have hj' : j = l.length + 1 := by rw [hlen1] at hjs; omega
          rw [hj', hyidx]
          exact le_of_not_lt hlt
      · intro j hj
        have hjs : j < (x :: l).length := lt_trans hj ih1
        rw [hsame j hjs]
        exact ih4 j hj

lemma argmax_fold_spec (x : ℚ) (xs : List ℚ) :
    (List.foldl argmaxStep (0, x) (List.enumFrom 1 xs)).1 < (x :: xs).length ∧
    (x :: xs).getD (List.foldl argmaxStep (0, x) (List.enumFrom 1 xs)).1 0 =
      (List.foldl argmaxStep (0, x) (List.enumFrom 1 xs)).2 ∧
    (∀ j < (x :: xs).length,
      (x :: xs).getD j 0 ≤ (List.foldl argmaxStep (0, x) (List.enumFrom 1 xs)).2) ∧
    (∀ j < (List.foldl argmaxStep (0, x) (List.enumFrom 1 xs)).1,
      (x :: xs).getD j 0 < (List.foldl argmaxStep (0, x) (List.enumFrom 1 xs)).2) := by
  induction xs using List.reverseRecOn with
  | nil =>
    refine ⟨by simp, by simp, ?_, by simp⟩
    intro j hj
    have hj0 : j = 0 := by simp only [List.length_cons, List.length_nil] at hj; omega
    subst hj0
    simp
  | append_singleton l y ih =>
    rw [List.enumFrom_append]
    simp only [List.enumFrom, List.foldl_append, List.foldl_cons, List.foldl_nil]
    set p := List.foldl argmaxStep (0, x) (List.enumFrom 1 l)
    obtain ⟨ih1, ih2, ih3, ih4⟩ := ih
    have hcons : x :: (l ++ [y]) = (x :: l) ++ [y] := by simp
    have hlen1 : (x :: l).length = l.length + 1 := by simp
    have hlen2 : (x :: (l ++ [y])).length = l.length + 2 := by simp
    have hyidx : (x :: (l ++ [y])).getD (l.length + 1) 0 = y := by
      rw [hcons, List.getD_append_right _ _ _ _ (by omega)]
      simp [hlen1]
    have hsame : ∀ j, j < (x :: l).length →
        (x :: (l ++ [y])).getD j 0 = (x :: l).getD j 0 := by
      intro j hj
      rw [hcons, List.getD_append _ _ _ _ hj]
    by_cases hlt : p.2 < y
    · have hstep : argmaxStep p (1 + l.length, y) = (1 + l.length, y) := by
        simp [argmaxStep, hlt]
      rw [hstep]
      refine ⟨by rw [hlen2]; omega, ?_, ?_, ?_⟩
      · show (x :: (l ++ [y])).getD (1 + l.length) 0 = y
        rw [Nat.add_comm 1 l.length]
        exact hyidx
      · intro j hj
        rw [hlen2] at hj
        by_cases hjs : j < (x :: l).length
        · rw [hsame j hjs]
          exact le_of_lt (lt_of_le_of_lt (ih3 j hjs) hlt)
        · have hj' : j = l.length + 1 := by rw [hlen1] at hjs; omega
          rw [hj', hyidx]
      · intro j hj
        have hjs : j < (x :: l).length := by rw [hlen1]; omega
        rw [hsame j hjs]
        exact lt_of_le_of_lt (ih3 j hjs) hlt
    · have hstep : argmaxStep p (1 + l.length, y) = p := by
        simp only [argmaxStep]
        rw [if_neg hlt]
      rw [hstep]
      refine ⟨by rw [hlen2]; rw [hlen1] at ih1; omega, ?_, ?_, ?_⟩
      · rw [hsame p.1 ih1]
        exact ih2
      · intro j hj
        rw [hlen2] at hj
        by_cases hjs : j < (x :: l).length
        · rw [hsame j hjs]
          exact ih3 j hjs
        · have hj' : j = l.length + 1 := by rw [hlen1] at hjs; omega
          rw [hj', hyidx]
          exact le_of_not_lt hlt
      · intro j hj
        have hjs : j < (x :: l).length := lt_trans hj ih1
        rw [hsame j hjs]
        exact ih4 j hj

lemma argmin_fold_snd (x : ℚ) (xs : List ℚ) :
    (List.foldl argminStep (0, x) (List.enumFrom 1 xs)).2 = pyMin x xs := by
  obtain ⟨h1, h2, h3, _⟩ := argmin_fold_spec x xs
  have hmem : (List.foldl argminStep (0, x) (List.enumFrom 1 xs)).2 ∈ x :: xs := by
    rw [← h2, List.getD_eq_getElem _ _ h1]
    exact List.getElem_mem h1
  have h3' : (List.foldl argminStep (0, x) (List.enumFrom 1 xs)).2 ≤ pyMin x xs := by
    obtain ⟨i, hi, hig⟩ := List.mem_iff_getElem.mp (pyMin_mem x xs)
    have := h3 i hi
    rw [List.getD_eq_getElem _ _ hi, hig] at this
    exact this
  exact le_antisymm h3' (pyMin_le x xs _ hmem)

lemma argmax_fold_snd (x : ℚ) (xs : List ℚ) :
    (List.foldl argmaxStep (0, x) (List.enumFrom 1 xs)).2 = pyMax x xs := by
  obtain ⟨h1, h2, h3, _⟩ := argmax_fold_spec x xs
  have hmem : (List.foldl argmaxStep (0, x) (List.enumFrom 1 xs)).2 ∈ x :: xs := by
    rw [← h2, List.getD_eq_getElem _ _ h1]
    exact List.getElem_mem h1
  have h3' : pyMax x xs ≤ (List.foldl argmaxStep (0, x) (List.enumFrom 1 xs)).2 := by
    obtain ⟨i, hi, hig⟩ := List.mem_iff_getElem.mp (pyMax_mem x xs)
    have := h3 i hi
    rw [List.getD_eq_getElem _ _ hi, hig] at this
    exact this
  exact le_antisymm (pyMax_ge x xs _ hmem) h3'

/-! ## Lemmas about sorting, pagination and persistence -/

lemma sortedKeys_perm (gd : Dataset) : (sortedKeys gd).Perm (gd.map Prod.fst) :=
  List.mergeSort_perm _ _

lemma sortedKeys_length (gd : Dataset) : (sortedKeys gd).length = gd.length := by
  rw [(sortedKeys_perm gd).length_eq, List.length_map]

lemma sortedKeys_sorted (gd : Dataset) : List.Sorted (· ≤ ·) (sortedKeys gd) := by
  unfold sortedKeys
  exact (@List.sorted_mergeSort String (fun a b => decide (a ≤ b))
    (fun a b c hab hbc =>
      decide_eq_true (le_trans (of_decide_eq_true hab) (of_decide_eq_true hbc)))
    (fun a b => by
      rcases le_total a b with h | h
      · simp [h]
      · simp [h])
    (gd.map Prod.fst)).imp (fun hab => of_decide_eq_true hab)

lemma sortedKeys_nodup (gd : Dataset) (h : (gd.map Prod.fst).Nodup) :
    (sortedKeys gd).Nodup :=
  h.perm (sortedKeys_perm gd).symm

lemma sortedKeys_sorted_lt (gd : Dataset) (h : (gd.map Prod.fst).Nodup) :
    List.Sorted (· < ·) (sortedKeys gd) :=
  (sortedKeys_sorted gd).lt_of_le (sortedKeys_nodup gd h)

lemma ceil_div_40 (n : ℕ) : (⌈(n : ℚ) / 40⌉).toNat = (n + 39) / 40 := by
  have h1 : 40 * ((n + 39) / 40) ≤ n + 39 := by omega
  have h3 : n ≤ 40 * ((n + 39) / 40) := by omega
  have h1' : (40 : ℚ) * (((n + 39) / 40 : ℕ) : ℚ) ≤ (n : ℚ) + 39 := by exact_mod_cast h1
  have h3' : (n : ℚ) ≤ 40 * (((n + 39) / 40 : ℕ) : ℚ) := by exact_mod_cast h3
  have hcast : (((((n + 39) / 40 : ℕ) : ℤ)) : ℚ) = (((n + 39) / 40 : ℕ) : ℚ) := by
    norm_cast
  have hceil : ⌈(n : ℚ) / 40⌉ = (((n + 39) / 40 : ℕ) : ℤ) := by
    rw [Int.ceil_eq_iff, hcast]
    constructor
    · rw [lt_div_iff₀ (by norm_num : (0:ℚ) < 40)]
      linarith
    · rw [div_le_iff₀ (by norm_num : (0:ℚ) < 40)]
      linarith
  rw [hceil]
  exact Int.toNat_natCast _

lemma tablePages_length (gd : Dataset) :
    (tablePages gd).length = (gd.length + 39) / 40 := by
  unfold tablePages
  rw [List.length_map, List.length_range, sortedKeys_length]
  rfl

lemma save_fold_length :
    ∀ (pages : List TablePage) (init : List TablePage), pages ≠ [] →
      (pages.foldl (fun file page => pdfPagesWrite file [page]) init).length = 1 := by
  intro pages
  induction pages with
  | nil =>
    intro init h
    cases h rfl
  | cons p ps ih =>
    intro init _
    rw [List.foldl_cons]
    cases ps with
    | nil => simp [pdfPagesWrite]
    | cons q qs => exact ih _ (by simp)

/-! ## The claims -/

/-- Claim C1: for every parsed record, the stored ratio equals kills divided by
deaths when deaths is nonzero, and equals kills converted to float when deaths
is zero, for every pair of integer kills and deaths accepted by the parser. -/
theorem ratio_invariant_of_read_game_data
    (rows : List Row) (gd : Dataset) (hok : read_game_data rows = .ok gd) :
    ∀ ts rec, (ts, rec) ∈ gd →
      rec.ratio = if rec.deaths = 0 then (rec.kills : ℚ)
        else (rec.kills : ℚ) / (rec.deaths : ℚ) := by
  intro ts rec hmem
  have h := read_rows_forall
    (P := fun rec => rec.ratio = parse_kd_ratio rec.kills rec.deaths)
    (fun r rec h => ratio_rowRecord h) rows [] gd hok (by simp) (ts, rec) hmem
  simpa [parse_kd_ratio] using h

/-- Witness for C1 at the single row `(t1, kills 10, deaths 2, skill 1.5)`. -/
theorem ratio_invariant_witness :
    read_game_data [(⟨none, some "t1", some 10, some 2, some (3/2)⟩ : Row)] =
      .ok [("t1", (⟨3/2, 10, 2, 5⟩ : Record))] ∧
    (∀ ts rec, (ts, rec) ∈ [("t1", (⟨3/2, 10, 2, 5⟩ : Record))] →
      rec.ratio = if rec.deaths = 0 then (rec.kills : ℚ)
        else (rec.kills : ℚ) / (rec.deaths : ℚ)) :=
  ⟨by
    simp only [read_game_data, read_rows, resolveTs, pyOr, truthy, rowRecord, insertGD,
      parse_kd_ratio]
    norm_num +decide,
   ratio_invariant_of_read_game_data
     [(⟨none, some "t1", some 10, some 2, some (3/2)⟩ : Row)]
     [("t1", (⟨3/2, 10, 2, 5⟩ : Record))] (by
      simp only [read_game_data, read_rows, resolveTs, pyOr, truthy, rowRecord, insertGD,
        parse_kd_ratio]
      norm_num +decide)⟩

/-- Claim C2: the parser resolves the timestamp from either header spelling
(the BOM-prefixed one taking precedence), and a row whose timestamp cannot be
resolved is skipped without error rather than stored or aborting the parse. -/
theorem timestamp_resolution_and_skip :
    (∀ (r : Row) (ts : String), r.bomTs = some ts → ts ≠ "" → resolveTs r = some ts) ∧
    (∀ (r : Row) (ts : String), (r.bomTs = none ∨ r.bomTs = some "") →
      r.utcTs = some ts → ts ≠ "" → resolveTs r = some ts) ∧
    (∀ (gd : Dataset) (r : Row) (rs : List Row), resolveTs r = none →
      read_rows gd (r :: rs) = read_rows gd rs) := by
  refine ⟨?_, ?_, ?_⟩
  · intro r ts h hne
    simp [resolveTs, pyOr, truthy, h, hne]
  · intro r ts hbom h hne
    rcases hbom with hb | hb <;> simp [resolveTs, pyOr, truthy, hb, h, hne]
  · intro gd r rs h
    simp only [read_rows, h]

/-- Witness for C2: a row whose only timestamp field is empty is skipped. -/
theorem timestamp_resolution_witness :
    resolveTs (⟨none, some "", some 1, some 1, some 1⟩ : Row) = none ∧
    read_rows [] [(⟨none, some "", some 1, some 1, some 1⟩ : Row)] = read_rows [] [] :=
  ⟨by decide,
   timestamp_resolution_and_skip.2.2 [] (⟨none, some "", some 1, some 1, some 1⟩ : Row) []
     (by decide)⟩

/-- Claim C5: on a non-empty series, `compute_series_stats` returns the
extrema, the arithmetic mean, and the 0-based indices of the FIRST occurrence
of the minimum and of the maximum. -/
theorem compute_series_stats_spec (s : List ℚ) (hne : s ≠ []) :
    ∃ smin smax avg span mi ma,
      compute_series_stats s = some (smin, smax, avg, span, mi, ma) ∧
      smin ∈ s ∧ (∀ y ∈ s, smin ≤ y) ∧
      smax ∈ s ∧ (∀ y ∈ s, y ≤ smax) ∧
      avg = s.sum / (s.length : ℚ) ∧
      mi < s.length ∧ s.getD mi 0 = smin ∧ (∀ j, j < mi → s.getD j 0 ≠ smin) ∧
      ma < s.length ∧ s.getD ma 0 = smax ∧ (∀ j, j < ma → s.getD j 0 ≠ smax) := by
  cases s with
  | nil => cases hne rfl
  | cons x xs =>
    obtain ⟨a1, a2, _, a4⟩ := argmin_fold_spec x xs
    obtain ⟨b1, b2, _, b4⟩ := argmax_fold_spec x xs
    refine ⟨pyMin x xs, pyMax x xs, (x :: xs).sum / ((x :: xs).length : ℚ),
      max (max |pyMin x xs| |pyMax x xs|) (1 / 1000000000),
      pyArgMin x xs, pyArgMax x xs, rfl,
      pyMin_mem x xs, pyMin_le x xs, pyMax_mem x xs, pyMax_ge x xs, rfl,
      a1, a2.trans (argmin_fold_snd x xs), ?_,
      b1, b2.trans (argmax_fold_snd x xs), ?_⟩
    · intro j hj
      have hlt := a4 j hj
      rw [argmin_fold_snd x xs] at hlt
      exact fun he => absurd (he ▸ hlt) (lt_irrefl _)
    · intro j hj
      have hlt := b4 j hj
      rw [argmax_fold_snd x xs] at hlt
      exact fun he => absurd (he ▸ hlt) (lt_irrefl _)

/-- Witness for C5 at the series `[2, 1, 1, 3, 3]`. -/
theorem compute_series_stats_spec_witness :
    (([2, 1, 1, 3, 3] : List ℚ) ≠ []) ∧
    (∃ smin smax avg span mi ma,
      compute_series_stats [2, 1, 1, 3, 3] = some (smin, smax, avg, span, mi, ma) ∧
      smin ∈ ([2, 1, 1, 3, 3] : List ℚ) ∧ (∀ y ∈ ([2, 1, 1, 3, 3] : List ℚ), smin ≤ y) ∧
      smax ∈ ([2, 1, 1, 3, 3] : List ℚ) ∧ (∀ y ∈ ([2, 1, 1, 3, 3] : List ℚ), y ≤ smax) ∧
      avg = ([2, 1, 1, 3, 3] : List ℚ).sum / (([2, 1, 1, 3, 3] : List ℚ).length : ℚ) ∧
      mi < ([2, 1, 1, 3, 3] : List ℚ).length ∧
      ([2, 1, 1, 3, 3] : List ℚ).getD mi 0 = smin ∧
      (∀ j, j < mi → ([2, 1, 1, 3, 3] : List ℚ).getD j 0 ≠ smin) ∧
      ma < ([2, 1, 1, 3, 3] : List ℚ).length ∧
      ([2, 1, 1, 3, 3] : List ℚ).getD ma 0 = smax ∧
      (∀ j, j < ma → ([2, 1, 1, 3, 3] : List ℚ).getD j 0 ≠ smax)) :=
  ⟨by decide, compute_series_stats_spec [2, 1, 1, 3, 3] (by decide)⟩

/-- Claim C6: on a non-empty series the span returned by
`compute_series_stats` equals `max(|min|, |max|, 1e-9)`; consequently
`span ≥ max(|min|, |max|)` and `span > 0`, including for all-zero input. -/
theorem compute_series_stats_span (s : List ℚ) (hne : s ≠ []) :
    ∃ smin smax avg span mi ma,
      compute_series_stats s = some (smin, smax, avg, span, mi, ma) ∧
      span = max (max |smin| |smax|) (1 / 1000000000) ∧
      max |smin| |smax| ≤ span ∧ 0 < span := by
  cases s with
  | nil => cases hne rfl
  | cons x xs =>
    refine ⟨pyMin x xs, pyMax x xs, (x :: xs).sum / ((x :: xs).length : ℚ),
      max (max |pyMin x xs| |pyMax x xs|) (1 / 1000000000),
      pyArgMin x xs, pyArgMax x xs, rfl, rfl, le_max_left _ _, ?_⟩
    exact lt_of_lt_of_le (by norm_num) (le_max_right _ _)

/-- Witness for C6 at the all-zero series `[0, 0]`. -/
theorem compute_series_stats_span_witness :
    (([0, 0] : List ℚ) ≠ []) ∧
    (∃ smin smax avg span mi ma,
      compute_series_stats [0, 0] = some (smin, smax, avg, span, mi, ma) ∧
      span = max (max |smin| |smax|) (1 / 1000000000) ∧
      max |smin| |smax| ≤ span ∧ 0 < span) :=
  ⟨by decide, compute_series_stats_span [0, 0] (by decide)⟩

/-- Claim C7: `compute_series_stats` fails on the empty sequence, and this
failure is unreachable in the chart: `generate_chart` invokes series
annotation only when the series is non-empty, skipping the markers and the
average line for an empty series. -/
theorem empty_series_annotation_guard :
    compute_series_stats [] = none ∧
    ∀ kd_series skill_series : List ℚ,
      (generate_chart kd_series skill_series).1 ≠ .failed ∧
      (generate_chart kd_series skill_series).2 ≠ .failed ∧
      (kd_series = [] → (generate_chart kd_series skill_series).1 = .skipped) ∧
      (skill_series = [] → (generate_chart kd_series skill_series).2 = .skipped) := by
  refine ⟨rfl, ?_⟩
  intro kd sk
  refine ⟨?_, ?_, ?_, ?_⟩
  · cases kd with
    | nil => simp [generate_chart]
    | cons x xs => simp [generate_chart, annotate_series_stats, compute_series_stats]
  · cases sk with
    | nil => simp [generate_chart]
    | cons x xs => simp [generate_chart, annotate_series_stats, compute_series_stats]
  · intro h
    subst h
    simp [generate_chart]
  · intro h
    subst h
    simp [generate_chart]

/-- Witness for C7: with an empty K/D series and a non-empty skill series, the
K/D annotation is skipped and the skill annotation does not fail. -/
theorem empty_series_annotation_witness :
    (generate_chart ([] : List ℚ) [1]).1 = .skipped ∧
    (generate_chart ([] : List ℚ) [1]).2 ≠ .failed :=
  ⟨(empty_series_annotation_guard.2 [] [1]).2.2.1 rfl,
   (empty_series_annotation_guard.2 [] [1]).2.1⟩

/-- Claim C10: a row whose resolved timestamp value is the empty string is
skipped exactly as if the timestamp columns were absent: it is silently
excluded from the dataset. -/
theorem empty_string_timestamp_skipped
    (gd : Dataset) (r : Row) (rs : List Row)
    (h : pyOr r.bomTs r.utcTs = some "") :
    resolveTs r = none ∧
    read_rows gd (r :: rs) = read_rows gd rs ∧
    read_rows gd ((⟨none, none, r.killsField, r.deathsField, r.skillField⟩ : Row) :: rs) =
      read_rows gd rs := by
  have hres : resolveTs r = none := by
    simp [resolveTs, h, truthy]
  refine ⟨hres, ?_, ?_⟩
  · simp only [read_rows, hres]
  · have hres2 : resolveTs (⟨none, none, r.killsField, r.deathsField, r.skillField⟩ : Row) =
        none := by
      simp [resolveTs, pyOr, truthy]
    simp only [read_rows, hres2]

lemma tablePages_getD (gd : Dataset) (i : ℕ) (hi : i < (tablePages gd).length) :
    (tablePages gd).getD i ⟨"", []⟩ =
      tablePage gd (((sortedKeys gd).length + ROWS_PER_PAGE - 1) / ROWS_PER_PAGE) i := by
  unfold tablePages at hi ⊢
  rw [List.getD_eq_getElem _ _ hi, List.getElem_map]
  congr 1
  exact List.getElem_range _ _

/-- Claim C8: the series extraction of `main` returns the dataset's keys in
ascending (strictly increasing, keys being unique) string order, the ratio and
skill series positionally aligned with the sorted keys, a position series
1..N, and all-empty sequences on the empty dataset. -/
theorem extract_series_spec (gd : Dataset) (hnd : (gd.map Prod.fst).Nodup) :
    (extract_series gd).1.Perm (gd.map Prod.fst) ∧
    List.Sorted (· < ·) (extract_series gd).1 ∧
    (extract_series gd).2.1.length = (extract_series gd).1.length ∧
    (extract_series gd).2.2.1.length = (extract_series gd).1.length ∧
    (∀ i rec, i < (extract_series gd).1.length →
      ((extract_series gd).1.getD i "", rec) ∈ gd →
      (extract_series gd).2.1.getD i 0 = rec.ratio ∧
      (extract_series gd).2.2.1.getD i 0 = rec.skill) ∧
    (extract_series gd).2.2.2 = List.range' 1 gd.length ∧
    (gd = [] → extract_series gd = ([], [], [], [])) := by
  refine ⟨sortedKeys_perm gd, sortedKeys_sorted_lt gd hnd, List.length_map _ _,
    List.length_map _ _, ?_, ?_, ?_⟩
  · intro i rec hi hmem
    have hi' : i < (sortedKeys gd).length := hi
    have hts : (extract_series gd).1.getD i "" = (sortedKeys gd)[i] :=
      List.getD_eq_getElem _ _ hi
    rw [hts] at hmem
    have hrec := findRecord_eq_of_mem hmem hnd
    constructor
    · have him : i < ((sortedKeys gd).map (fun ts => (findRecord gd ts).ratio)).length := by
        rw [List.length_map]
        exact hi'
      have h1 : (extract_series gd).2.1.getD i 0 =
          ((sortedKeys gd).map (fun ts => (findRecord gd ts).ratio)).getD i 0 := rfl
      rw [h1, List.getD_eq_getElem _ _ him, List.getElem_map, hrec]
    · have him : i < ((sortedKeys gd).map (fun ts => (findRecord gd ts).skill)).length := by
        rw [List.length_map]
        exact hi'
      have h1 : (extract_series gd).2.2.1.getD i 0 =
          ((sortedKeys gd).map (fun ts => (findRecord gd ts).skill)).getD i 0 := rfl
      rw [h1, List.getD_eq_getElem _ _ him, List.getElem_map, hrec]
  · show List.range' 1 (sortedKeys gd).length = List.range' 1 gd.length
    rw [sortedKeys_length]
  · intro h
    subst h
    simp [extract_series, sortedKeys]

/-- Dataset used by the witness for C8. -/
def gdW8 : Dataset := [("b", ⟨1, 2, 3, 4⟩), ("a", ⟨5, 6, 7, 8⟩)]

/-- Witness for C8 at a concrete two-record dataset with unsorted keys. -/
theorem extract_series_witness :
    (gdW8.map Prod.fst).Nodup ∧
    ((extract_series gdW8).1.Perm (gdW8.map Prod.fst) ∧
      List.Sorted (· < ·) (extract_series gdW8).1 ∧
      (extract_series gdW8).2.1.length = (extract_series gdW8).1.length ∧
      (extract_series gdW8).2.2.1.length = (extract_series gdW8).1.length ∧
      (∀ i rec, i < (extract_series gdW8).1.length →
        ((extract_series gdW8).1.getD i "", rec) ∈ gdW8 →
        (extract_series gdW8).2.1.getD i 0 = rec.ratio ∧
        (extract_series gdW8).2.2.1.getD i 0 = rec.skill) ∧
      (extract_series gdW8).2.2.2 = List.range' 1 gdW8.length ∧
      (gdW8 = [] → extract_series gdW8 = ([], [], [], []))) :=
  ⟨by decide, extract_series_spec gdW8 (by decide)⟩

/-- Claim C9: the table renderer produces exactly ceil(N/40) pages; each page
starts with the fixed header row, holds at most 40 data rows forming the next
consecutive slice of the ascending timestamp list, and is titled
"Game Data Table - Page i of total"; the last page holds exactly
N - 40*(pages-1) data rows. -/
theorem table_pagination_spec (gd : Dataset) :
    (tablePages gd).length = (⌈(gd.length : ℚ) / 40⌉).toNat ∧
    (∀ p ∈ tablePages gd, p.cells.headD [] = TABLE_HEADERS ∧
      p.cells.length ≤ ROWS_PER_PAGE + 1) ∧
    (∀ i, i < (tablePages gd).length →
      ((tablePages gd).getD i ⟨"", []⟩).title =
        "Game Data Table - Page " ++ toString (i + 1) ++ " of " ++
          toString (tablePages gd).length ∧
      ((tablePages gd).getD i ⟨"", []⟩).cells.tail.map (fun row => row.headD "") =
        ((sortedKeys gd).drop (i * ROWS_PER_PAGE)).take ROWS_PER_PAGE) ∧
    List.Sorted (· ≤ ·) (sortedKeys gd) ∧
    (1 ≤ gd.length →
      ((tablePages gd).getD ((tablePages gd).length - 1) ⟨"", []⟩).cells.length - 1 =
        gd.length - 40 * ((tablePages gd).length - 1)) := by
  refine ⟨?_, ?_, ?_, sortedKeys_sorted gd, ?_⟩
  · rw [tablePages_length]
    exact (ceil_div_40 gd.length).symm
  · intro p hp
    obtain ⟨i, _, hpi⟩ := List.mem_map.mp hp
    subst hpi
    refine ⟨rfl, ?_⟩
    unfold tablePage
    simp only [List.length_cons, List.length_map, List.length_take]
    have h40 : ROWS_PER_PAGE = 40 := rfl
    rw [h40]
    omega
  · intro i hi
    rw [tablePages_getD gd i hi]
    have htot : (tablePages gd).length =
        ((sortedKeys gd).length + ROWS_PER_PAGE - 1) / ROWS_PER_PAGE := by
      unfold tablePages
      rw [List.length_map, List.length_range]
    constructor
    · rw [htot]
      rfl
    · unfold tablePage
      rw [List.tail_cons, List.map_map,
        show ((fun row => List.headD row "") ∘ formatRow gd) = id from
          funext (fun t => rfl), List.map_id]
  · intro hN
    have htot : (tablePages gd).length = (gd.length + 39) / 40 := tablePages_length gd
    have hi : (tablePages gd).length - 1 < (tablePages gd).length := by
      rw [htot]
      omega
    rw [tablePages_getD gd _ hi]
    unfold tablePage
    simp only [List.length_cons, List.length_map, List.length_take, List.length_drop]
    rw [sortedKeys_length, htot]
    have h40 : ROWS_PER_PAGE = 40 := rfl
    rw [h40]
    omega

/-- Witness for C9 at a one-record dataset: one page with one data row. -/
theorem table_pagination_witness :
    1 ≤ ([("a", (⟨1, 2, 3, 4⟩ : Record))] : Dataset).length ∧
    ((tablePages [("a", (⟨1, 2, 3, 4⟩ : Record))]).getD
        ((tablePages [("a", (⟨1, 2, 3, 4⟩ : Record))]).length - 1) ⟨"", []⟩).cells.length - 1 =
      ([("a", (⟨1, 2, 3, 4⟩ : Record))] : Dataset).length -
        40 * ((tablePages [("a", (⟨1, 2, 3, 4⟩ : Record))]).length - 1) :=
  ⟨by decide,
   (table_pagination_spec [("a", (⟨1, 2, 3, 4⟩ : Record))]).2.2.2.2 (by decide)⟩

/-- A 41-record dataset: keys "100" … "140", all with the same record. -/
def gd41 : Dataset :=
  (List.range 41).map (fun i => (toString (100 + i), (⟨0, 0, 0, 0⟩ : Record)))

/-- Claim C3 (refuted by the code, which contradicts its own docstring
promising a multipage PDF): on a 41-record dataset the renderer produces
ceil(41/40) = 2 pages, but the persisted document holds only 1 page — the
final one — because `PdfPages(output_path)` is reopened, truncating the file,
on every iteration of the page loop. -/
theorem table_pdf_persists_only_last_page :
    (tablePages gd41).length = 2 ∧ (save_table_pdf gd41).length = 1 := by
  have hlen : gd41.length = 41 := by
    unfold gd41
    rw [List.length_map, List.length_range]
  have hp : (tablePages gd41).length = 2 := by
    rw [tablePages_length, hlen]
  refine ⟨hp, ?_⟩
  unfold save_table_pdf
  apply save_fold_length
  intro hnil
  rw [hnil] at hp
  simp at hp

/-- Claim C4: when exactly two input rows share the timestamp key T (every row
resolvable, all other keys distinct), exactly one record survives under T —
the one from the later row — and the dataset holds N-1 records, not N. -/
theorem duplicate_timestamp_last_write_wins
    (rows : List Row) (gd : Dataset) (T : String) (r2 : Row)
    (hok : read_game_data rows = .ok gd)
    (hall : (resolvedKeys rows).length = rows.length)
    (hcount : (resolvedKeys rows).count T = 2)
    (hnd : ((resolvedKeys rows).erase T).Nodup)
    (hlast : lastResolved T rows = some r2) :
    lookupGD gd T = rowRecord r2 ∧ gd.length = rows.length - 1 := by
  constructor
  · have h := read_rows_lookup T rows [] gd hok
    rw [hlast] at h
    exact h
  · have hfin := read_rows_keys_toFinset rows [] gd hok
    have hnodup := read_rows_keys_nodup rows [] gd hok (by simp)
    simp only [List.map_nil, List.toFinset_nil, Finset.empty_union] at hfin
    have hcard := toFinset_card_of_one_dup hcount hnd
    calc gd.length = (gd.map Prod.fst).length := (List.length_map _ _).symm
      _ = (gd.map Prod.fst).toFinset.card := (List.toFinset_card_of_nodup hnodup).symm
      _ = (resolvedKeys rows).toFinset.card := by rw [hfin]
      _ = (resolvedKeys rows).length - 1 := hcard
      _ = rows.length - 1 := by rw [hall]

/-- First input row of the duplicate-timestamp witness (key "a"). -/
def rowA : Row := ⟨none, some "a", some 1, some 1, some 1⟩

/-- Second input row of the duplicate-timestamp witness (key "T", kills 2). -/
def rowT1 : Row := ⟨none, some "T", some 2, some 1, some 1⟩

/-- Third input row of the duplicate-timestamp witness (key "T", kills 3). -/
def rowT2 : Row := ⟨none, some "T", some 3, some 1, some 1⟩

/-- The dict produced from `[rowA, rowT1, rowT2]`: the later "T" row wins. -/
def gdDup : Dataset := [("a", ⟨1, 1, 1, 1⟩), ("T", ⟨1, 3, 1, 3⟩)]

/-- Witness for C4: of three rows, the two sharing key "T" collapse into one
record, the one parsed from the later row. -/
theorem duplicate_timestamp_witness :
    read_game_data [rowA, rowT1, rowT2] = .ok gdDup ∧
    (resolvedKeys [rowA, rowT1, rowT2]).length = 3 ∧
    (resolvedKeys [rowA, rowT1, rowT2]).count "T" = 2 ∧
    ((resolvedKeys [rowA, rowT1, rowT2]).erase "T").Nodup ∧
    lastResolved "T" [rowA, rowT1, rowT2] = some rowT2 ∧
    (lookupGD gdDup "T" = rowRecord rowT2 ∧ gdDup.length = 2) := by
  have hok' : read_game_data [rowA, rowT1, rowT2] = .ok gdDup := by
    simp only [read_game_data, read_rows, resolveTs, pyOr, truthy, rowRecord, insertGD,
      rowA, rowT1, rowT2, gdDup, parse_kd_ratio]
    norm_num +decide
  refine ⟨hok', by decide, by decide, by decide, by decide, ?_⟩
  exact duplicate_timestamp_last_write_wins [rowA, rowT1, rowT2] gdDup "T" rowT2 hok'
    (by decide) (by decide) (by decide) (by decide)

/-- Witness for C10 at a row whose plain timestamp field holds `""`. -/
theorem empty_string_timestamp_witness :
    pyOr (⟨some "", some "", some 7, some 0, some 1⟩ : Row).bomTs
      (⟨some "", some "", some 7, some 0, some 1⟩ : Row).utcTs = some "" ∧
    (resolveTs (⟨some "", some "", some 7, some 0, some 1⟩ : Row) = none ∧
      read_rows [] [(⟨some "", some "", some 7, some 0, some 1⟩ : Row)] = read_rows [] [] ∧
      read_rows [] [(⟨none, none, some 7, some 0, some 1⟩ : Row)] = read_rows [] []) :=
  ⟨by decide,
   empty_string_timestamp_skipped [] (⟨some "", some "", some 7, some 0, some 1⟩ : Row) []
     (by decide)⟩

end CodStats
